import Mathlib

/-!
Shallow embedding of the `slender-math` vector/matrix/quaternion library
(`src/lib.rs` and the build-time swizzle generator `build.rs`).

Scalars: `f32` lanes are modelled by exact rationals (`ℚ`); transcendental
operations (`sin_cos`, `sqrt`, `acos`) are passed as explicit function
parameters, mirroring how the source calls out to the standard library.
For the one claim about IEEE special values (the 2x3 matrix inverse at a
zero determinant) a dedicated scalar type `F` with `+inf`, `-inf` and `NaN`
is used, with exact arithmetic on finite values and IEEE propagation rules
for the special values. `i32` lanes are modelled by `ℤ` with Rust's
truncating division and remainder; `std::simd` integer division and
remainder panic when any divisor lane is zero or any lane pair overflows
(`i32::MIN` over `-1`), modelled by returning `none`.

SIMD registers (`f32x2`, `f32x4`, `i32x4`) are structures with one field
per lane; `simd_swizzle!` applications are translated lane by lane.
-/

namespace SlenderMath

/-- Model of `std::simd::f32x2`: two `f32` lanes. -/
structure f32x2 where
  l0 : ℚ
  l1 : ℚ
deriving DecidableEq, Repr

/-- Model of `std::simd::f32x4`: four `f32` lanes. -/
structure f32x4 where
  l0 : ℚ
  l1 : ℚ
  l2 : ℚ
  l3 : ℚ
deriving DecidableEq, Repr

/-- Model of `std::simd::i32x4`: four `i32` lanes. -/
structure i32x4 where
  l0 : ℤ
  l1 : ℤ
  l2 : ℤ
  l3 : ℤ
deriving DecidableEq, Repr

/-- Rust `f32::trunc`: rounding toward zero. -/
def rtrunc (x : ℚ) : ℚ := if 0 ≤ x then (⌊x⌋ : ℚ) else (⌈x⌉ : ℚ)

/-- Rust `f32` `%` (`Rem`): `x - (x / y).trunc() * y` (sign of the dividend). -/
def frem (x y : ℚ) : ℚ := x - rtrunc (x / y) * y

namespace f32x4

/-- Lane-wise `+` on `f32x4`. -/
def add (a b : f32x4) : f32x4 := ⟨a.l0 + b.l0, a.l1 + b.l1, a.l2 + b.l2, a.l3 + b.l3⟩

/-- Lane-wise `-` on `f32x4`. -/
def sub (a b : f32x4) : f32x4 := ⟨a.l0 - b.l0, a.l1 - b.l1, a.l2 - b.l2, a.l3 - b.l3⟩

/-- Lane-wise `*` on `f32x4`. -/
def mul (a b : f32x4) : f32x4 := ⟨a.l0 * b.l0, a.l1 * b.l1, a.l2 * b.l2, a.l3 * b.l3⟩

/-- Lane-wise `/` on `f32x4`. -/
def div (a b : f32x4) : f32x4 := ⟨a.l0 / b.l0, a.l1 / b.l1, a.l2 / b.l2, a.l3 / b.l3⟩

/-- Lane-wise `%` on `f32x4`. -/
def rem (a b : f32x4) : f32x4 :=
  ⟨frem a.l0 b.l0, frem a.l1 b.l1, frem a.l2 b.l2, frem a.l3 b.l3⟩

/-- Lane-wise negation on `f32x4`. -/
def neg (a : f32x4) : f32x4 := ⟨-a.l0, -a.l1, -a.l2, -a.l3⟩

/-- `f32x4::splat`. -/
def splat (x : ℚ) : f32x4 := ⟨x, x, x, x⟩

/-- Lane-wise `abs`. -/
def vabs (a : f32x4) : f32x4 := ⟨|a.l0|, |a.l1|, |a.l2|, |a.l3|⟩

/-- Lane-wise `recip` (in the exact model `0.recip = 0`; for `Vector3f` the
    padding lane is masked afterwards by `from_simd_truncate`, so the
    divergence from IEEE `1/0 = inf` is invisible to the claims below). -/
def vrecip (a : f32x4) : f32x4 := ⟨a.l0⁻¹, a.l1⁻¹, a.l2⁻¹, a.l3⁻¹⟩

/-- Lane-wise `floor`. -/
def vfloor (a : f32x4) : f32x4 := ⟨(⌊a.l0⌋ : ℚ), (⌊a.l1⌋ : ℚ), (⌊a.l2⌋ : ℚ), (⌊a.l3⌋ : ℚ)⟩

/-- Lane-wise `ceil`. -/
def vceil (a : f32x4) : f32x4 := ⟨(⌈a.l0⌉ : ℚ), (⌈a.l1⌉ : ℚ), (⌈a.l2⌉ : ℚ), (⌈a.l3⌉ : ℚ)⟩

/-- Lane-wise `fract` (Rust: `x - x.trunc()`). -/
def vfract (a : f32x4) : f32x4 :=
  ⟨a.l0 - rtrunc a.l0, a.l1 - rtrunc a.l1, a.l2 - rtrunc a.l2, a.l3 - rtrunc a.l3⟩

/-- Lane-wise `simd_min`. -/
def vmin (a b : f32x4) : f32x4 :=
  ⟨min a.l0 b.l0, min a.l1 b.l1, min a.l2 b.l2, min a.l3 b.l3⟩

/-- Lane-wise `simd_max`. -/
def vmax (a b : f32x4) : f32x4 :=
  ⟨max a.l0 b.l0, max a.l1 b.l1, max a.l2 b.l2, max a.l3 b.l3⟩

/-- Lane-wise fused `mul_add` (exact model: `a*b + c`). -/
def vmul_add (a b c : f32x4) : f32x4 :=
  ⟨a.l0 * b.l0 + c.l0, a.l1 * b.l1 + c.l1, a.l2 * b.l2 + c.l2, a.l3 * b.l3 + c.l3⟩

/-- `reduce_sum`. -/
def reduce_sum (a : f32x4) : ℚ := a.l0 + a.l1 + a.l2 + a.l3

/-- Lane read by position (used by the generated swizzle accessors, whose
    indices are always in range; out-of-range defaults to `0`). -/
def lane (a : f32x4) : Nat → ℚ
  | 0 => a.l0
  | 1 => a.l1
  | 2 => a.l2
  | 3 => a.l3
  | _ => 0

end f32x4

namespace f32x2

/-- Lane-wise `+` on `f32x2`. -/
def add (a b : f32x2) : f32x2 := ⟨a.l0 + b.l0, a.l1 + b.l1⟩

/-- Lane-wise `-` on `f32x2`. -/
def sub (a b : f32x2) : f32x2 := ⟨a.l0 - b.l0, a.l1 - b.l1⟩

/-- Lane-wise `*` on `f32x2`. -/
def mul (a b : f32x2) : f32x2 := ⟨a.l0 * b.l0, a.l1 * b.l1⟩

/-- Lane-wise `/` on `f32x2`. -/
def div (a b : f32x2) : f32x2 := ⟨a.l0 / b.l0, a.l1 / b.l1⟩

/-- `f32x2::splat`. -/
def splat (x : ℚ) : f32x2 := ⟨x, x⟩

/-- `reduce_sum`. -/
def reduce_sum (a : f32x2) : ℚ := a.l0 + a.l1

end f32x2

namespace i32x4

/-- Lane-wise `+` on `i32x4`. -/
def add (a b : i32x4) : i32x4 := ⟨a.l0 + b.l0, a.l1 + b.l1, a.l2 + b.l2, a.l3 + b.l3⟩

/-- Lane-wise `-` on `i32x4`. -/
def sub (a b : i32x4) : i32x4 := ⟨a.l0 - b.l0, a.l1 - b.l1, a.l2 - b.l2, a.l3 - b.l3⟩

/-- Lane-wise `*` on `i32x4`. -/
def mul (a b : i32x4) : i32x4 := ⟨a.l0 * b.l0, a.l1 * b.l1, a.l2 * b.l2, a.l3 * b.l3⟩

/-- `i32::MIN`. -/
def i32Min : ℤ := -(2 ^ 31)

/-- Lane-wise `/` (Rust `i32` division truncates toward zero, `Int.tdiv`).
    `std::simd` integer division panics — modelled as `none` — when any
    lane of the divisor is zero, or when any lane pair overflows
    (`i32::MIN / -1`). -/
def div (a b : i32x4) : Option i32x4 :=
  if b.l0 = 0 ∨ b.l1 = 0 ∨ b.l2 = 0 ∨ b.l3 = 0 then none
  else if (a.l0 = i32Min ∧ b.l0 = -1) ∨ (a.l1 = i32Min ∧ b.l1 = -1) ∨
      (a.l2 = i32Min ∧ b.l2 = -1) ∨ (a.l3 = i32Min ∧ b.l3 = -1) then none
  else some ⟨Int.tdiv a.l0 b.l0, Int.tdiv a.l1 b.l1, Int.tdiv a.l2 b.l2, Int.tdiv a.l3 b.l3⟩

/-- Lane-wise `%` (Rust `i32` remainder takes the dividend's sign,
    `Int.tmod`). `std::simd` integer remainder panics — modelled as `none`
    — when any lane of the divisor is zero, or when any lane pair
    overflows (`i32::MIN % -1`). -/
def rem (a b : i32x4) : Option i32x4 :=
  if b.l0 = 0 ∨ b.l1 = 0 ∨ b.l2 = 0 ∨ b.l3 = 0 then none
  else if (a.l0 = i32Min ∧ b.l0 = -1) ∨ (a.l1 = i32Min ∧ b.l1 = -1) ∨
      (a.l2 = i32Min ∧ b.l2 = -1) ∨ (a.l3 = i32Min ∧ b.l3 = -1) then none
  else some ⟨Int.tmod a.l0 b.l0, Int.tmod a.l1 b.l1, Int.tmod a.l2 b.l2, Int.tmod a.l3 b.l3⟩

/-- Lane-wise negation. -/
def neg (a : i32x4) : i32x4 := ⟨-a.l0, -a.l1, -a.l2, -a.l3⟩

/-- `i32x4::splat`. -/
def splat (x : ℤ) : i32x4 := ⟨x, x, x, x⟩

/-- Lane-wise `abs`. -/
def vabs (a : i32x4) : i32x4 := ⟨|a.l0|, |a.l1|, |a.l2|, |a.l3|⟩

/-- Lane-wise `simd_min`. -/
def vmin (a b : i32x4) : i32x4 :=
  ⟨min a.l0 b.l0, min a.l1 b.l1, min a.l2 b.l2, min a.l3 b.l3⟩

/-- Lane-wise `simd_max`. -/
def vmax (a b : i32x4) : i32x4 :=
  ⟨max a.l0 b.l0, max a.l1 b.l1, max a.l2 b.l2, max a.l3 b.l3⟩

end i32x4

/-- `Vector2f`: a vector with 2 `f32` components, newtype over `f32x2`. -/
structure Vector2f where
  s : f32x2
deriving DecidableEq, Repr

namespace Vector2f

/-- `Vector2f::new`. -/
def new (x y : ℚ) : Vector2f := ⟨⟨x, y⟩⟩

/-- `Vector2f::from_scalar`. -/
def from_scalar (scalar : ℚ) : Vector2f := ⟨⟨scalar, scalar⟩⟩

/-- The `x` component. -/
def x (v : Vector2f) : ℚ := v.s.l0

/-- The `y` component. -/
def y (v : Vector2f) : ℚ := v.s.l1

/-- `Vector2f::from_simd_truncate` (identity: no padding lane). -/
def from_simd_truncate (simd_vec : f32x2) : Vector2f := ⟨simd_vec⟩

/-- Generated swizzle accessor `yx`. -/
def yx (v : Vector2f) : Vector2f := from_simd_truncate ⟨v.s.l1, v.s.l0⟩

/-- `Vector2f::cross` (2D cross: `prod = self * rhs.yx(); prod[0] - prod[1]`). -/
def cross (a b : Vector2f) : ℚ :=
  let prod := f32x2.mul a.s (b.yx).s
  prod.l0 - prod.l1

/-- Vector-vector `Sub`. -/
def sub (a b : Vector2f) : Vector2f := ⟨f32x2.sub a.s b.s⟩

/-- Vector-scalar `Div` (`from_simd_truncate(self.0 / splat(rhs))`). -/
def divScalar (a : Vector2f) (t : ℚ) : Vector2f :=
  from_simd_truncate (f32x2.div a.s (f32x2.splat t))

/-- Vector-scalar `Mul`. -/
def mulScalar (a : Vector2f) (t : ℚ) : Vector2f :=
  from_simd_truncate (f32x2.mul a.s (f32x2.splat t))

/-- `dot` (from `impl_common_f!`). -/
def dot (a b : Vector2f) : ℚ := (f32x2.mul a.s b.s).reduce_sum

/-- `len2`. -/
def len2 (a : Vector2f) : ℚ := dot a a

/-- `len`, with the `f32::sqrt` call abstracted as a parameter. -/
def len (sqrt : ℚ → ℚ) (a : Vector2f) : ℚ := sqrt a.len2

/-- `normalized`: returns `self` unchanged when `len == 0.0`, else `self / len`. -/
def normalized (sqrt : ℚ → ℚ) (a : Vector2f) : Vector2f :=
  if len sqrt a = 0 then a else divScalar a (len sqrt a)

end Vector2f

/-- `Vector3f`: a vector with 3 `f32` components, stored in an `f32x4`
    whose 4th lane is the padding lane. -/
structure Vector3f where
  s : f32x4
deriving DecidableEq, Repr

namespace Vector3f

/-- `Vector3f::new`: the 4th lane is set to `0.0`. -/
def new (x y z : ℚ) : Vector3f := ⟨⟨x, y, z, 0⟩⟩

/-- `Vector3f::from_scalar`: the 4th lane is set to `0.0`. -/
def from_scalar (scalar : ℚ) : Vector3f := ⟨⟨scalar, scalar, scalar, 0⟩⟩

/-- `Vector3f::from_array`. -/
def from_array (a0 a1 a2 : ℚ) : Vector3f := ⟨⟨a0, a1, a2, 0⟩⟩

/-- `Vector3f::from_v2f`. -/
def from_v2f (v : Vector2f) (z : ℚ) : Vector3f := ⟨⟨v.x, v.y, z, 0⟩⟩

/-- The `x` component. -/
def x (v : Vector3f) : ℚ := v.s.l0

/-- The `y` component. -/
def y (v : Vector3f) : ℚ := v.s.l1

/-- The `z` component. -/
def z (v : Vector3f) : ℚ := v.s.l2

/-- `Vector3f::from_simd_truncate`: masks the 4th lane back to zero. -/
def from_simd_truncate (simd_vec : f32x4) : Vector3f :=
  ⟨⟨simd_vec.l0, simd_vec.l1, simd_vec.l2, 0⟩⟩

/-- `Vector3f::cross`, translated shuffle by shuffle from the source. -/
def cross (a rhs : Vector3f) : Vector3f :=
  let tmp0 : f32x4 := ⟨a.s.l1, a.s.l2, a.s.l0, a.s.l3⟩
  let tmp1 : f32x4 := ⟨rhs.s.l2, rhs.s.l0, rhs.s.l1, rhs.s.l3⟩
  let tmp2 := f32x4.mul tmp0 rhs.s
  let tmp3 := f32x4.mul tmp0 tmp1
  let tmp4 : f32x4 := ⟨tmp2.l1, tmp2.l2, tmp2.l0, tmp2.l3⟩
  ⟨f32x4.sub tmp3 tmp4⟩

/-- Vector-vector `Add`. -/
def add (a b : Vector3f) : Vector3f := ⟨f32x4.add a.s b.s⟩

/-- Vector-vector `Sub`. -/
def sub (a b : Vector3f) : Vector3f := ⟨f32x4.sub a.s b.s⟩

/-- `Neg`. -/
def neg (a : Vector3f) : Vector3f := ⟨f32x4.neg a.s⟩

/-- Vector-vector `Mul`. -/
def mul (a b : Vector3f) : Vector3f := ⟨f32x4.mul a.s b.s⟩

/-- Vector-vector `Div` (truncated). -/
def div (a b : Vector3f) : Vector3f := from_simd_truncate (f32x4.div a.s b.s)

/-- Vector-vector `Rem` (truncated). -/
def rem (a b : Vector3f) : Vector3f := from_simd_truncate (f32x4.rem a.s b.s)

/-- Vector-scalar `Add` (truncated). -/
def addScalar (a : Vector3f) (t : ℚ) : Vector3f :=
  from_simd_truncate (f32x4.add a.s (f32x4.splat t))

/-- Vector-scalar `Sub` (truncated). -/
def subScalar (a : Vector3f) (t : ℚ) : Vector3f :=
  from_simd_truncate (f32x4.sub a.s (f32x4.splat t))

/-- Vector-scalar `Mul` (truncated). -/
def mulScalar (a : Vector3f) (t : ℚ) : Vector3f :=
  from_simd_truncate (f32x4.mul a.s (f32x4.splat t))

/-- Vector-scalar `Div` (truncated). -/
def divScalar (a : Vector3f) (t : ℚ) : Vector3f :=
  from_simd_truncate (f32x4.div a.s (f32x4.splat t))

/-- Vector-scalar `Rem` (truncated). -/
def remScalar (a : Vector3f) (t : ℚ) : Vector3f :=
  from_simd_truncate (f32x4.rem a.s (f32x4.splat t))

/-- `abs` (from `impl_common_f!`, no truncation). -/
def abs (a : Vector3f) : Vector3f := ⟨f32x4.vabs a.s⟩

/-- `recip` (truncated). -/
def recip (a : Vector3f) : Vector3f := from_simd_truncate (f32x4.vrecip a.s)

/-- `floor` (no truncation). -/
def floor (a : Vector3f) : Vector3f := ⟨f32x4.vfloor a.s⟩

/-- `ceil` (no truncation). -/
def ceil (a : Vector3f) : Vector3f := ⟨f32x4.vceil a.s⟩

/-- `fract` (no truncation). -/
def fract (a : Vector3f) : Vector3f := ⟨f32x4.vfract a.s⟩

/-- `dot`. -/
def dot (a b : Vector3f) : ℚ := (f32x4.mul a.s b.s).reduce_sum

/-- `len2`. -/
def len2 (a : Vector3f) : ℚ := dot a a

/-- `len` with abstract `sqrt`. -/
def len (sqrt : ℚ → ℚ) (a : Vector3f) : ℚ := sqrt a.len2

/-- `normalized`: returns `self` unchanged when `len == 0.0`, else `self / len`. -/
def normalized (sqrt : ℚ → ℚ) (a : Vector3f) : Vector3f :=
  if len sqrt a = 0 then a else divScalar a (len sqrt a)

/-- `lerp`: `self + ((rhs - self) * t)`. -/
def lerp (a rhs : Vector3f) (t : ℚ) : Vector3f := add a (mulScalar (sub rhs a) t)

/-- `min`. -/
def min (a rhs : Vector3f) : Vector3f := ⟨f32x4.vmin a.s rhs.s⟩

/-- `max`. -/
def max (a rhs : Vector3f) : Vector3f := ⟨f32x4.vmax a.s rhs.s⟩

/-- `mul_add`: `(self * a) + b` fused. -/
def mul_add (v a b : Vector3f) : Vector3f := ⟨f32x4.vmul_add v.s a.s b.s⟩

end Vector3f

/-- `Vector3i`: 3 `i32` components with a padding 4th lane. -/
structure Vector3i where
  s : i32x4
deriving DecidableEq, Repr

namespace Vector3i

/-- `Vector3i::new`: the 4th lane is set to `0`. -/
def new (x y z : ℤ) : Vector3i := ⟨⟨x, y, z, 0⟩⟩

/-- `Vector3i::from_scalar`. -/
def from_scalar (scalar : ℤ) : Vector3i := ⟨⟨scalar, scalar, scalar, 0⟩⟩

/-- `Vector3i::from_array`. -/
def from_array (a0 a1 a2 : ℤ) : Vector3i := ⟨⟨a0, a1, a2, 0⟩⟩

/-- `Vector3i::from_v2i` (the 2-component integer vector is two lanes). -/
def from_v2i (v0 v1 : ℤ) (z : ℤ) : Vector3i := ⟨⟨v0, v1, z, 0⟩⟩

/-- `Vector3i::from_simd_truncate`: masks the 4th lane back to zero. -/
def from_simd_truncate (simd_vec : i32x4) : Vector3i :=
  ⟨⟨simd_vec.l0, simd_vec.l1, simd_vec.l2, 0⟩⟩

/-- Vector-vector `Add`. -/
def add (a b : Vector3i) : Vector3i := ⟨i32x4.add a.s b.s⟩

/-- Vector-vector `Sub`. -/
def sub (a b : Vector3i) : Vector3i := ⟨i32x4.sub a.s b.s⟩

/-- `Neg`. -/
def neg (a : Vector3i) : Vector3i := ⟨i32x4.neg a.s⟩

/-- Vector-vector `Mul`. -/
def mul (a b : Vector3i) : Vector3i := ⟨i32x4.mul a.s b.s⟩

/-- Vector-vector `Div` (truncated when it returns; under invariant P the
    divisor's padding lane is zero, so this always panics). -/
def div (a b : Vector3i) : Option Vector3i :=
  (i32x4.div a.s b.s).map from_simd_truncate

/-- Vector-vector `Rem` (truncated when it returns; under invariant P the
    divisor's padding lane is zero, so this always panics). -/
def rem (a b : Vector3i) : Option Vector3i :=
  (i32x4.rem a.s b.s).map from_simd_truncate

/-- Vector-scalar `Add` (truncated). -/
def addScalar (a : Vector3i) (t : ℤ) : Vector3i :=
  from_simd_truncate (i32x4.add a.s (i32x4.splat t))

/-- Vector-scalar `Sub` (truncated). -/
def subScalar (a : Vector3i) (t : ℤ) : Vector3i :=
  from_simd_truncate (i32x4.sub a.s (i32x4.splat t))

/-- Vector-scalar `Mul` (truncated). -/
def mulScalar (a : Vector3i) (t : ℤ) : Vector3i :=
  from_simd_truncate (i32x4.mul a.s (i32x4.splat t))

/-- Vector-scalar `Div` (truncated when it returns; panics at `t = 0` or
    on `i32::MIN / -1` overflow in some lane). -/
def divScalar (a : Vector3i) (t : ℤ) : Option Vector3i :=
  (i32x4.div a.s (i32x4.splat t)).map from_simd_truncate

/-- Vector-scalar `Rem` (truncated when it returns; panics at `t = 0` or
    on `i32::MIN % -1` overflow in some lane). -/
def remScalar (a : Vector3i) (t : ℤ) : Option Vector3i :=
  (i32x4.rem a.s (i32x4.splat t)).map from_simd_truncate

/-- `abs` (from `impl_common_i!`). -/
def abs (a : Vector3i) : Vector3i := ⟨i32x4.vabs a.s⟩

/-- `min`. -/
def min (a rhs : Vector3i) : Vector3i := ⟨i32x4.vmin a.s rhs.s⟩

/-- `max`. -/
def max (a rhs : Vector3i) : Vector3i := ⟨i32x4.vmax a.s rhs.s⟩

end Vector3i

/-- Invariant P for `Vector3f`: the 4th physical lane is zero. -/
def Vector3f.padZero (v : Vector3f) : Prop := v.s.l3 = 0

/-- Invariant P for `Vector3i`: the 4th physical lane is zero. -/
def Vector3i.padZero (v : Vector3i) : Prop := v.s.l3 = 0

instance (v : Vector3f) : Decidable v.padZero := by unfold Vector3f.padZero; infer_instance

instance (v : Vector3i) : Decidable v.padZero := by unfold Vector3i.padZero; infer_instance

/-- `Vector4f`: a vector with 4 `f32` components (no padding lane). -/
structure Vector4f where
  s : f32x4
deriving DecidableEq, Repr

namespace Vector4f

/-- `Vector4f::new`. -/
def new (x y z w : ℚ) : Vector4f := ⟨⟨x, y, z, w⟩⟩

/-- `Vector4f::from_scalar`. -/
def from_scalar (scalar : ℚ) : Vector4f := ⟨⟨scalar, scalar, scalar, scalar⟩⟩

/-- `Vector4f::from_v3f`. -/
def from_v3f (v : Vector3f) (w : ℚ) : Vector4f := ⟨⟨v.x, v.y, v.z, w⟩⟩

/-- The `x` component. -/
def x (v : Vector4f) : ℚ := v.s.l0

/-- The `y` component. -/
def y (v : Vector4f) : ℚ := v.s.l1

/-- The `z` component. -/
def z (v : Vector4f) : ℚ := v.s.l2

/-- The `w` component. -/
def w (v : Vector4f) : ℚ := v.s.l3

/-- `Vector4f::from_simd_truncate` (identity: no padding lane). -/
def from_simd_truncate (simd_vec : f32x4) : Vector4f := ⟨simd_vec⟩

/-- Vector-scalar `Div` (`from_simd_truncate(self.0 / splat(rhs))`). -/
def divScalar (a : Vector4f) (t : ℚ) : Vector4f :=
  from_simd_truncate (f32x4.div a.s (f32x4.splat t))

/-- Vector-scalar `Mul`. -/
def mulScalar (a : Vector4f) (t : ℚ) : Vector4f :=
  from_simd_truncate (f32x4.mul a.s (f32x4.splat t))

/-- `dot`. -/
def dot (a b : Vector4f) : ℚ := (f32x4.mul a.s b.s).reduce_sum

/-- `len2`. -/
def len2 (a : Vector4f) : ℚ := dot a a

/-- `len` with abstract `sqrt`. -/
def len (sqrt : ℚ → ℚ) (a : Vector4f) : ℚ := sqrt a.len2

/-- `normalized`: returns `self` unchanged when `len == 0.0`, else `self / len`. -/
def normalized (sqrt : ℚ → ℚ) (a : Vector4f) : Vector4f :=
  if len sqrt a = 0 then a else divScalar a (len sqrt a)

end Vector4f

/-- `Quaternion`: 4 `f32` components, no padding invariant. -/
structure Quaternion where
  s : f32x4
deriving DecidableEq, Repr

namespace Quaternion

/-- `Quaternion::new`. -/
def new (x y z w : ℚ) : Quaternion := ⟨⟨x, y, z, w⟩⟩

/-- The `x` component. -/
def x (q : Quaternion) : ℚ := q.s.l0

/-- The `y` component. -/
def y (q : Quaternion) : ℚ := q.s.l1

/-- The `z` component. -/
def z (q : Quaternion) : ℚ := q.s.l2

/-- The `w` component. -/
def w (q : Quaternion) : ℚ := q.s.l3

/-- Generated swizzle accessor `xyz` (gathers lanes `[0,1,2]`, pads the
    field list with index `0`, routes through `Vector3f::from_simd_truncate`). -/
def xyz (q : Quaternion) : Vector3f :=
  Vector3f.from_simd_truncate ⟨q.s.l0, q.s.l1, q.s.l2, q.s.l0⟩

/-- Generated swizzle accessor `xyzw` (gathers lanes `[0,1,2,3]`, routes
    through `Vector4f::from_simd_truncate`). -/
def xyzw (q : Quaternion) : Vector4f :=
  Vector4f.from_simd_truncate ⟨q.s.l0, q.s.l1, q.s.l2, q.s.l3⟩

/-- Scalar `Mul` for `Quaternion` (`self.0 * splat(rhs)`, no truncation). -/
def mulScalar (q : Quaternion) (rhs : ℚ) : Quaternion :=
  ⟨f32x4.mul q.s (f32x4.splat rhs)⟩

/-- `Quaternion::from_angle_x`; `sc` models `f32::sin_cos`, applied to `angle * 0.5`. -/
def from_angle_x (sc : ℚ → ℚ × ℚ) (angle : ℚ) : Quaternion :=
  let sincos := sc (angle * (1/2))
  new sincos.1 0 0 sincos.2

/-- `Quaternion::from_angle_y`. -/
def from_angle_y (sc : ℚ → ℚ × ℚ) (angle : ℚ) : Quaternion :=
  let sincos := sc (angle * (1/2))
  new 0 sincos.1 0 sincos.2

/-- `Quaternion::from_angle_z`. -/
def from_angle_z (sc : ℚ → ℚ × ℚ) (angle : ℚ) : Quaternion :=
  let sincos := sc (angle * (1/2))
  new 0 0 sincos.1 sincos.2

/-- Hamilton product (`Mul for Quaternion`), translated from the source:
    `xyz = rhs.xyz*self.w + self.xyz*rhs.w + cross(self.xyz, rhs.xyz)`,
    `w = self.w*rhs.w - dot(self.xyz, rhs.xyz)`. -/
def mul (a rhs : Quaternion) : Quaternion :=
  let v := Vector3f.add
    (Vector3f.add (Vector3f.mulScalar rhs.xyz a.w) (Vector3f.mulScalar a.xyz rhs.w))
    (Vector3f.cross a.xyz rhs.xyz)
  let w := a.w * rhs.w - Vector3f.dot a.xyz rhs.xyz
  new v.x v.y v.z w

/-- `Quaternion::from_yaw_pitch_roll`: `y * x * z`. -/
def from_yaw_pitch_roll (sc : ℚ → ℚ × ℚ) (yaw pitch roll : ℚ) : Quaternion :=
  let qy := from_angle_y sc yaw
  let qx := from_angle_x sc pitch
  let qz := from_angle_z sc roll
  mul (mul qy qx) qz

/-- `Quaternion::normalized`: `len = self.xyzw().len()`; identity when
    `len == 0.0`, else `self * (1.0 / len)`. -/
def normalized (sqrt : ℚ → ℚ) (q : Quaternion) : Quaternion :=
  let l := Vector4f.len sqrt q.xyzw
  if l = 0 then q else mulScalar q (1 / l)

/-- Machine epsilon of `f32` (`f32::EPSILON = 2^-23`). -/
def fEPSILON : ℚ := 1 / 2 ^ 23

/-- `Quaternion::to_axis_angle`, translated from the source; `sqrt` and
    `acos` model the `f32` library calls. -/
def to_axis_angle (sqrt acos : ℚ → ℚ) (q : Quaternion) : Vector3f × ℚ :=
  let q' := if q.w > 1 then q.normalized sqrt else q
  let angle := 2 * acos q'.w
  let s := sqrt (1 - q'.w * q'.w)
  if s < fEPSILON then
    (Vector3f.new 1 0 0, angle)
  else
    (Vector3f.new (q'.x / s) (q'.y / s) (q'.z / s), angle)

end Quaternion

/-- `Matrix4x4`: column-major, 4 columns of `f32x4`. -/
structure Matrix4x4 where
  c0 : f32x4
  c1 : f32x4
  c2 : f32x4
  c3 : f32x4
deriving DecidableEq, Repr

namespace Matrix4x4

/-- `column(index)`. -/
def column (m : Matrix4x4) : Fin 4 → f32x4
  | 0 => m.c0
  | 1 => m.c1
  | 2 => m.c2
  | 3 => m.c3

/-- `Index<(usize, usize)>`: `self.0[index.1][index.0]` (row, column). -/
def elem (m : Matrix4x4) (i j : Fin 4) : ℚ := (m.column j).lane i.val

/-- `Matrix4x4::transposed`: the `_MM_TRANSPOSE4_PS` shuffle network,
    translated shuffle by shuffle from the source. -/
def transposed (m : Matrix4x4) : Matrix4x4 :=
  let c0 := m.c0
  let c1 := m.c1
  let c2 := m.c2
  let c3 := m.c3
  -- unpacklo!: [First(0), Second(0), First(1), Second(1)]
  let tmp0 : f32x4 := ⟨c0.l0, c1.l0, c0.l1, c1.l1⟩
  let tmp2 : f32x4 := ⟨c2.l0, c3.l0, c2.l1, c3.l1⟩
  -- unpackhi!: [First(2), Second(2), First(3), Second(3)]
  let tmp1 : f32x4 := ⟨c0.l2, c1.l2, c0.l3, c1.l3⟩
  let tmp3 : f32x4 := ⟨c2.l2, c3.l2, c2.l3, c3.l3⟩
  -- movelh!: [First(0), First(1), Second(0), Second(1)]
  let d0 : f32x4 := ⟨tmp0.l0, tmp0.l1, tmp2.l0, tmp2.l1⟩
  -- movehl!(a, b): [Second(2), Second(3), First(2), First(3)]
  let d1 : f32x4 := ⟨tmp0.l2, tmp0.l3, tmp2.l2, tmp2.l3⟩
  let d2 : f32x4 := ⟨tmp1.l0, tmp1.l1, tmp3.l0, tmp3.l1⟩
  let d3 : f32x4 := ⟨tmp1.l2, tmp1.l3, tmp3.l2, tmp3.l3⟩
  ⟨d0, d1, d2, d3⟩

/-- Modelled from the spec: the naive element-swap transpose
    (`result[(i,j)] = self[(j,i)]`), the comparison point for the claim
    that the shuffle network is equivalent to it. -/
def transposedNaive (m : Matrix4x4) : Matrix4x4 :=
  ⟨⟨m.c0.l0, m.c1.l0, m.c2.l0, m.c3.l0⟩,
   ⟨m.c0.l1, m.c1.l1, m.c2.l1, m.c3.l1⟩,
   ⟨m.c0.l2, m.c1.l2, m.c2.l2, m.c3.l2⟩,
   ⟨m.c0.l3, m.c1.l3, m.c2.l3, m.c3.l3⟩⟩

/-- `Mul<Vector4f> for Matrix4x4`. -/
def mulVector4f (m : Matrix4x4) (rhs : Vector4f) : Vector4f :=
  let x := f32x4.splat rhs.s.l0
  let y := f32x4.splat rhs.s.l1
  let z := f32x4.splat rhs.s.l2
  let w := f32x4.splat rhs.s.l3
  ⟨f32x4.add (f32x4.add (f32x4.add (f32x4.mul m.c0 x) (f32x4.mul m.c1 y))
      (f32x4.mul m.c2 z)) (f32x4.mul m.c3 w)⟩

/-- `Mul<Vector3f> for Matrix4x4`: the translation column `c3` is added
    unscaled (implicit `w = 1`), and the result is routed through
    `Vector3f::from_simd_truncate`. -/
def mulVector3f (m : Matrix4x4) (rhs : Vector3f) : Vector3f :=
  let x := f32x4.splat rhs.s.l0
  let y := f32x4.splat rhs.s.l1
  let z := f32x4.splat rhs.s.l2
  Vector3f.from_simd_truncate
    (f32x4.add (f32x4.add (f32x4.add (f32x4.mul m.c0 x) (f32x4.mul m.c1 y))
      (f32x4.mul m.c2 z)) m.c3)

/-- `Matrix4x4::perspective`; the four `assert!` calls are modelled by
    returning `none` (abort); `sc` models `f32::sin_cos` on `fov_y * 0.5`. -/
def perspective (sc : ℚ → ℚ × ℚ) (fov_y aspect_ratio near_plane far_plane : ℚ) :
    Option Matrix4x4 :=
  if fov_y > 0 then
    if aspect_ratio > 0 then
      if near_plane > 1 then
        if far_plane > near_plane then
          let sincos := sc (fov_y * (1/2))
          let h := sincos.2 / sincos.1
          let w := h / aspect_ratio
          let r := far_plane / (far_plane - near_plane)
          let z := -r * near_plane
          some ⟨⟨w, 0, 0, 0⟩, ⟨0, h, 0, 0⟩, ⟨0, 0, r, 1⟩, ⟨0, 0, z, 0⟩⟩
        else none
      else none
    else none
  else none

end Matrix4x4

/-- Idealized `f32` with IEEE special values, used for the `Matrix2x3`
    claims: exact (unrounded) arithmetic on finite values, IEEE propagation
    for `inf`/`-inf`/`NaN`. A single zero stands for IEEE `±0.0` (division
    of a positive finite value by it yields `inf`, matching `+0.0`; the
    claim under test does not distinguish the sign of infinities). -/
inductive F where
  | fin (q : ℚ)
  | inf
  | ninf
  | nan
deriving DecidableEq, Repr

namespace F

/-- IEEE negation. -/
def neg : F → F
  | fin q => fin (-q)
  | inf => ninf
  | ninf => inf
  | nan => nan

/-- IEEE multiplication (`0 * inf = NaN`). -/
def mul : F → F → F
  | nan, _ => nan
  | _, nan => nan
  | fin a, fin b => fin (a * b)
  | fin a, inf => if 0 < a then inf else if a < 0 then ninf else nan
  | fin a, ninf => if 0 < a then ninf else if a < 0 then inf else nan
  | inf, fin b => if 0 < b then inf else if b < 0 then ninf else nan
  | ninf, fin b => if 0 < b then ninf else if b < 0 then inf else nan
  | inf, inf => inf
  | inf, ninf => ninf
  | ninf, inf => ninf
  | ninf, ninf => inf

/-- IEEE subtraction (`inf - inf = NaN`). -/
def sub : F → F → F
  | nan, _ => nan
  | _, nan => nan
  | fin a, fin b => fin (a - b)
  | fin _, inf => ninf
  | fin _, ninf => inf
  | inf, fin _ => inf
  | ninf, fin _ => ninf
  | inf, inf => nan
  | inf, ninf => inf
  | ninf, inf => ninf
  | ninf, ninf => nan

/-- IEEE division (`x / 0 = ±inf` for `x ≠ 0`, `0 / 0 = NaN`). -/
def div : F → F → F
  | nan, _ => nan
  | _, nan => nan
  | fin a, fin b =>
      if b = 0 then (if a = 0 then nan else if 0 < a then inf else ninf)
      else fin (a / b)
  | fin _, inf => fin 0
  | fin _, ninf => fin 0
  | inf, fin b => if 0 ≤ b then inf else ninf
  | ninf, fin b => if 0 ≤ b then ninf else inf
  | inf, inf => nan
  | inf, ninf => nan
  | ninf, inf => nan
  | ninf, ninf => nan

/-- A special (non-finite) value: `±inf` or `NaN`. -/
def isSpecial (x : F) : Prop := x = inf ∨ x = ninf ∨ x = nan

instance : DecidablePred isSpecial := fun x => by unfold isSpecial; infer_instance

end F

/-- An `f32x2` register over the IEEE-specials scalar (one `Matrix2x3` column). -/
structure Fx2 where
  l0 : F
  l1 : F
deriving DecidableEq, Repr

/-- `Matrix2x3`: column-major, 3 columns of 2 `f32` lanes, over the
    IEEE-specials scalar. -/
structure Matrix2x3 where
  c0 : Fx2
  c1 : Fx2
  c2 : Fx2
deriving DecidableEq, Repr

namespace Matrix2x3

/-- `Matrix2x3::new(e00, e10, e01, e11, e02, e12)` (column by column). -/
def new (e00 e10 e01 e11 e02 e12 : F) : Matrix2x3 :=
  ⟨⟨e00, e10⟩, ⟨e01, e11⟩, ⟨e02, e12⟩⟩

/-- `Vector2f::cross` over the IEEE-specials scalar
    (`prod = self * rhs.yx(); prod[0] - prod[1]`). -/
def fcross (a b : Fx2) : F := F.sub (F.mul a.l0 b.l1) (F.mul a.l1 b.l0)

/-- `Matrix2x3::determinant`: cross product of columns 0 and 1. -/
def determinant (m : Matrix2x3) : F := fcross m.c0 m.c1

/-- `Matrix2x3::inverse`, translated from the source
    (`inv_det = 1.0 / det`, then the 2x2 block inverse plus recomputed
    translation, each element scaled by `inv_det`). -/
def inverse (m : Matrix2x3) : Matrix2x3 :=
  let det := m.determinant
  let inv_det := F.div (F.fin 1) det
  let m00 := m.c0.l0
  let m10 := m.c0.l1
  let m01 := m.c1.l0
  let m11 := m.c1.l1
  let m02 := m.c2.l0
  let m12 := m.c2.l1
  let e00 := F.mul m11 inv_det
  let e10 := F.mul (F.neg m01) inv_det
  let e01 := F.mul (F.neg m10) inv_det
  let e11 := F.mul m00 inv_det
  let e02 := F.mul (F.sub (F.mul m01 m12) (F.mul m02 m11)) inv_det
  let e12 := F.mul (F.sub (F.mul m02 m10) (F.mul m00 m12)) inv_det
  new e00 e10 e01 e11 e02 e12

end Matrix2x3

/-- Model of `std::simd::i32x2`. -/
structure i32x2 where
  l0 : ℤ
  l1 : ℤ
deriving DecidableEq, Repr

/-- `Vector2i`: 2 `i32` components. -/
structure Vector2i where
  s : i32x2
deriving DecidableEq, Repr

/-- `Vector2i::new`. -/
def Vector2i.new (x y : ℤ) : Vector2i := ⟨⟨x, y⟩⟩

/-- `Vector4i`: 4 `i32` components. -/
structure Vector4i where
  s : i32x4
deriving DecidableEq, Repr

/-- `Vector4i::new`. -/
def Vector4i.new (x y z w : ℤ) : Vector4i := ⟨⟨x, y, z, w⟩⟩

/-- `Index<usize> for Vector2f` (`self.0.index(index)`): the underlying
    `f32x2` has 2 physical lanes, so any index `≥ 2` panics (`none`). -/
def Vector2f.index (v : Vector2f) (i : Nat) : Option ℚ :=
  match i with
  | 0 => some v.s.l0
  | 1 => some v.s.l1
  | _ => none

/-- `Index<usize> for Vector3f` (`self.0.index(index)`): the underlying
    `f32x4` has 4 physical lanes, so indices `0..=3` all succeed (index 3
    reads the padding lane) and any index `≥ 4` panics (`none`). -/
def Vector3f.index (v : Vector3f) (i : Nat) : Option ℚ :=
  match i with
  | 0 => some v.s.l0
  | 1 => some v.s.l1
  | 2 => some v.s.l2
  | 3 => some v.s.l3
  | _ => none

/-- `Index<usize> for Vector4f`: 4 physical lanes. -/
def Vector4f.index (v : Vector4f) (i : Nat) : Option ℚ :=
  match i with
  | 0 => some v.s.l0
  | 1 => some v.s.l1
  | 2 => some v.s.l2
  | 3 => some v.s.l3
  | _ => none

/-- `Index<usize> for Vector2i`: 2 physical lanes. -/
def Vector2i.index (v : Vector2i) (i : Nat) : Option ℤ :=
  match i with
  | 0 => some v.s.l0
  | 1 => some v.s.l1
  | _ => none

/-- `Index<usize> for Vector3i`: 4 physical lanes (index 3 reads the
    padding lane). -/
def Vector3i.index (v : Vector3i) (i : Nat) : Option ℤ :=
  match i with
  | 0 => some v.s.l0
  | 1 => some v.s.l1
  | 2 => some v.s.l2
  | 3 => some v.s.l3
  | _ => none

/-- `Index<usize> for Vector4i`: 4 physical lanes. -/
def Vector4i.index (v : Vector4i) (i : Nat) : Option ℤ :=
  match i with
  | 0 => some v.s.l0
  | 1 => some v.s.l1
  | 2 => some v.s.l2
  | 3 => some v.s.l3
  | _ => none

/-- `build.rs` `next_perm`: iterate over the digits from the right,
    increment; on reaching `max` reset to `0` and carry left, otherwise
    stop. Also returns whether a carry propagated out of the leftmost
    digit (the Rust loop simply terminates in that case). -/
def next_perm (max : Nat) : List Nat → List Nat × Bool
  | [] => ([], true)
  | d :: rest =>
    match next_perm max rest with
    | (rest', true) =>
      if d + 1 ≥ max then (0 :: rest', true) else ((d + 1) :: rest', false)
    | (rest', false) => (d :: rest', false)

/-- `build.rs` `write_field_list`: the permutation digits followed by `0`
    for every physical lane from `OUTPUT_COUNT` up to
    `OUTPUT_COUNT.next_power_of_two()`. -/
def write_field_list (perm : List Nat) : List Nat :=
  perm ++ List.replicate (Nat.nextPowerOfTwo perm.length - perm.length) 0

/-- The emission loop of `write_swizzles`: starting from `perm`, emit
    `fuel` permutations, stepping with `next_perm` after each. -/
def swizzle_go (C : Nat) : Nat → List Nat → List (List Nat)
  | 0, _ => []
  | fuel + 1, perm => perm :: swizzle_go C fuel (next_perm C perm).1

/-- `build.rs` `write_swizzles::<C, M>`: the `C^M` permutations emitted,
    in emission order, starting from `[0; M]`. -/
def swizzle_list (C M : Nat) : List (List Nat) :=
  swizzle_go C (C ^ M) (List.replicate M 0)

/-- Modelled from the spec: the `M`-digit mixed-radix (base `C`)
    representation of `i`, most significant digit first — the last digit
    varies fastest, carries propagate left. -/
def toDigits (C M i : Nat) : List Nat :=
  match M with
  | 0 => []
  | M + 1 => (i / C ^ M) :: toDigits C M (i % C ^ M)

/-- Decoder for `toDigits`, used to show the emitted permutations are
    pairwise distinct. -/
def fromDigits (C : Nat) : List Nat → Nat
  | [] => 0
  | d :: rest => d * C ^ rest.length + fromDigits C rest

/-- Gather of a 4-lane source by a 4-entry index list (a `simd_swizzle!`
    with dynamic reading of the generated index list). -/
def gather4 (v : f32x4) (idx : List Nat) : f32x4 :=
  ⟨v.lane (idx.getD 0 0), v.lane (idx.getD 1 0), v.lane (idx.getD 2 0), v.lane (idx.getD 3 0)⟩

/-- The generated 3-wide swizzle accessor body for a 4-lane source:
    `Vector3f::from_simd_truncate(simd_swizzle!(self.0, [field list]))`. -/
def swizzle_accessor3 (v : f32x4) (perm : List Nat) : Vector3f :=
  Vector3f.from_simd_truncate (gather4 v (write_field_list perm))

end SlenderMath

namespace SlenderMath

theorem toDigits_length (C M i : Nat) : (toDigits C M i).length = M := by
  induction M generalizing i with
  | zero => rfl
  | succ M ih => simp [toDigits, ih]

theorem toDigits_zero (C M : Nat) : toDigits C M 0 = List.replicate M 0 := by
  induction M with
  | zero => rfl
  | succ M ih => simp [toDigits, ih, List.replicate_succ]

theorem toDigits_lt (C M : Nat) : ∀ i, i < C ^ M → ∀ d ∈ toDigits C M i, d < C := by
  induction M with
  | zero => intro i hi d hd; simp [toDigits] at hd
  | succ M ih =>
    intro i hi d hd
    have hC : 0 < C := by
      rcases Nat.eq_zero_or_pos C with h | h
      · subst h; simp at hi
      · exact h
    have hP : 0 < C ^ M := Nat.pos_pow_of_pos M hC
    simp only [toDigits, List.mem_cons] at hd
    rcases hd with h | h
    · subst h
      rw [Nat.div_lt_iff_lt_mul hP]
      calc i < C ^ (M + 1) := hi
        _ = C * C ^ M := by ring
    · exact ih (i % C ^ M) (Nat.mod_lt _ hP) d h

theorem fromDigits_toDigits (C M : Nat) : ∀ i, i < C ^ M →
    fromDigits C (toDigits C M i) = i := by
  induction M with
  | zero =>
    intro i hi
    simp only [pow_zero, Nat.lt_one_iff] at hi
    subst hi; rfl
  | succ M ih =>
    intro i hi
    have hC : 0 < C := by
      rcases Nat.eq_zero_or_pos C with h | h
      · subst h; simp at hi
      · exact h
    have hP : 0 < C ^ M := Nat.pos_pow_of_pos M hC
    simp only [toDigits, fromDigits, toDigits_length]
    rw [ih (i % C ^ M) (Nat.mod_lt _ hP)]
    rw [Nat.mul_comm (i / C ^ M) (C ^ M)]
    exact Nat.div_add_mod i (C ^ M)

theorem next_perm_toDigits (C : Nat) (hC : 0 < C) :
    ∀ M i, i < C ^ M →
      next_perm C (toDigits C M i) =
        (toDigits C M ((i + 1) % C ^ M), decide (i + 1 = C ^ M)) := by
  intro M
  induction M with
  | zero =>
    intro i hi
    simp only [pow_zero, Nat.lt_one_iff] at hi
    subst hi
    simp [toDigits, next_perm]
  | succ M ih =>
    intro i hi
    have hP : 0 < C ^ M := pow_pos hC M
    have hsucc : C ^ (M + 1) = C ^ M * C := pow_succ C M
    have hiP : i % C ^ M < C ^ M := Nat.mod_lt _ hP
    have hdm : C ^ M * (i / C ^ M) + i % C ^ M = i := Nat.div_add_mod i (C ^ M)
    have hd : i / C ^ M < C := by
      rw [Nat.div_lt_iff_lt_mul hP, Nat.mul_comm C (C ^ M)]
      omega
    have hrec := ih (i % C ^ M) hiP
    by_cases hwrap : i % C ^ M + 1 = C ^ M
    · have hrec' : next_perm C (toDigits C M (i % C ^ M)) = (toDigits C M 0, true) := by
        rw [hrec, hwrap]
        simp
      by_cases hlast : i / C ^ M + 1 ≥ C
      · -- both the inner digits and the leading digit wrap: i + 1 = C ^ (M + 1)
        have hms : C ^ M * (i / C ^ M + 1) = C ^ M * (i / C ^ M) + C ^ M :=
          Nat.mul_succ _ _
        have hdc : i / C ^ M + 1 = C := by omega
        have hmc : C ^ M * (i / C ^ M + 1) = C ^ M * C := by rw [hdc]
        have hiv : i + 1 = C ^ (M + 1) := by omega
        rw [hiv]
        simp only [toDigits, next_perm, hrec', Nat.mod_self, Nat.zero_div, Nat.zero_mod]
        rw [if_pos hlast]
        simp
      · -- only the inner digits wrap: i + 1 = C ^ M * (i / C ^ M + 1)
        have hms : C ^ M * (i / C ^ M + 1) = C ^ M * (i / C ^ M) + C ^ M :=
          Nat.mul_succ _ _
        have hde : i + 1 = C ^ M * (i / C ^ M + 1) := by omega
        have hml : C ^ M * (i / C ^ M + 1) < C ^ M * C :=
          mul_lt_mul_of_pos_left (by omega) hP
        have hlt : i + 1 < C ^ (M + 1) := by omega
        rw [Nat.mod_eq_of_lt hlt]
        simp only [toDigits, next_perm, hrec']
        rw [if_neg hlast]
        have h1 : (i + 1) / C ^ M = i / C ^ M + 1 := by
          rw [hde, Nat.mul_div_cancel_left _ hP]
        have h2 : (i + 1) % C ^ M = 0 := by
          rw [hde, Nat.mul_mod_right]
        rw [h1, h2]
        simp [Nat.ne_of_lt hlt]
    · -- no carry out of the inner digits
      have hlt3 : i % C ^ M + 1 < C ^ M := by omega
      have hrec' : next_perm C (toDigits C M (i % C ^ M)) =
          (toDigits C M (i % C ^ M + 1), false) := by
        rw [hrec, Nat.mod_eq_of_lt hlt3]
        simp [Nat.ne_of_lt hlt3]
      have hms : C ^ M * (i / C ^ M + 1) = C ^ M * (i / C ^ M) + C ^ M :=
        Nat.mul_succ _ _
      have hml : C ^ M * (i / C ^ M + 1) ≤ C ^ M * C :=
        mul_le_mul_left' (by omega) _
      have hlt : i + 1 < C ^ (M + 1) := by omega
      rw [Nat.mod_eq_of_lt hlt]
      simp only [toDigits, next_perm, hrec']
      have hde : i + 1 = C ^ M * (i / C ^ M) + (i % C ^ M + 1) := by omega
      have h1 : (i + 1) / C ^ M = i / C ^ M := by
        rw [hde, Nat.mul_add_div hP, Nat.div_eq_of_lt hlt3]
        omega
      have h2 : (i + 1) % C ^ M = i % C ^ M + 1 := by
        rw [hde, Nat.mul_add_mod, Nat.mod_eq_of_lt hlt3]
      rw [h1, h2]
      simp [Nat.ne_of_lt hlt]

theorem swizzle_go_eq (C : Nat) (hC : 0 < C) (M : Nat) :
    ∀ n i, i + n ≤ C ^ M →
      swizzle_go C n (toDigits C M i) = (List.range' i n).map (toDigits C M) := by
  intro n
  induction n with
  | zero => intro i _; simp [swizzle_go]
  | succ n ih =>
    intro i h
    rw [List.range'_succ]
    cases n with
    | zero => simp [swizzle_go]
    | succ m =>
      have hi1 : i + 1 < C ^ M := by omega
      have hstep := next_perm_toDigits C hC M i (by omega)
      rw [Nat.mod_eq_of_lt hi1] at hstep
      have hstep1 : (next_perm C (toDigits C M i)).1 = toDigits C M (i + 1) := by
        rw [hstep]
      have hgo : swizzle_go C (m + 1 + 1) (toDigits C M i) =
          toDigits C M i :: swizzle_go C (m + 1) (next_perm C (toDigits C M i)).1 := rfl
      rw [hgo, hstep1, ih (i + 1) (by omega)]
      simp

theorem swizzle_list_eq (C M : Nat) (hC : 0 < C) :
    swizzle_list C M = (List.range (C ^ M)).map (toDigits C M) := by
  rw [swizzle_list, ← toDigits_zero C M, List.range_eq_range']
  exact swizzle_go_eq C hC M (C ^ M) 0 (by omega)

theorem swizzle_list_nodup (C M : Nat) (hC : 0 < C) : (swizzle_list C M).Nodup := by
  rw [swizzle_list_eq C M hC]
  refine List.Nodup.map_on ?_ (List.nodup_range _)
  intro a ha b hb hab
  rw [List.mem_range] at ha hb
  have h1 := fromDigits_toDigits C M a ha
  have h2 := fromDigits_toDigits C M b hb
  rw [hab] at h1
  omega

/-- Claim C5: for each source component count `C` and output width `M`, the
    build-time swizzle generator emits exactly `C^M` distinct accessors,
    enumerated by a mixed-radix counter over `M` digits in `[0,C)` with the
    last output position varying fastest and carries propagating left
    (`toDigits` is that counter, most significant digit first); each
    accessor's field list fills physical lanes beyond `M` with source index
    `0`, and the result is routed through the target type's truncation
    constructor (here shown for the 3-wide target: the padding lane of
    every generated accessor result is zero). -/
theorem c5_swizzle_generator (C M : Nat) (hC : 0 < C) :
    swizzle_list C M = (List.range (C ^ M)).map (toDigits C M) ∧
    (swizzle_list C M).length = C ^ M ∧
    (swizzle_list C M).Nodup ∧
    (∀ perm ∈ swizzle_list C M, perm.length = M ∧ ∀ d ∈ perm, d < C) ∧
    (∀ perm : List Nat,
      write_field_list perm =
        perm ++ List.replicate (Nat.nextPowerOfTwo perm.length - perm.length) 0) ∧
    (∀ (v : f32x4) (perm : List Nat),
      swizzle_accessor3 v perm =
        Vector3f.from_simd_truncate (gather4 v (write_field_list perm)) ∧
      (swizzle_accessor3 v perm).padZero) := by
  refine ⟨swizzle_list_eq C M hC, ?_, swizzle_list_nodup C M hC, ?_, ?_, ?_⟩
  · rw [swizzle_list_eq C M hC]
    simp
  · intro perm hperm
    rw [swizzle_list_eq C M hC, List.mem_map] at hperm
    obtain ⟨i, hi, rfl⟩ := hperm
    rw [List.mem_range] at hi
    exact ⟨toDigits_length C M i, toDigits_lt C M i hi⟩
  · intro perm
    rfl
  · intro v perm
    exact ⟨rfl, rfl⟩

/-- Witness for C5 at the concrete pair `C = 3`, `M = 2`: 9 accessors,
    pairwise distinct, and the concrete emission order of the counter. -/
theorem c5_swizzle_generator_witness :
    (0 < 3) ∧ (swizzle_list 3 2).length = 3 ^ 2 ∧ (swizzle_list 3 2).Nodup ∧
      swizzle_list 3 2 =
        [[0, 0], [0, 1], [0, 2], [1, 0], [1, 1], [1, 2], [2, 0], [2, 1], [2, 2]] := by
  refine ⟨by decide, (c5_swizzle_generator 3 2 (by decide)).2.1,
    (c5_swizzle_generator 3 2 (by decide)).2.2.1, by decide⟩

/-- Claim C4: the shuffle-network implementation of `Matrix4x4::transposed`
    is bit-identical to the naive element-swap transpose: it performs pure
    lane movement (no arithmetic), and every element `(i, j)` of the result
    is exactly element `(j, i)` of the input. -/
theorem c4_transposed_equals_naive (m : Matrix4x4) :
    m.transposed = m.transposedNaive ∧
    ∀ i j : Fin 4, m.transposed.elem i j = m.elem j i := by
  obtain ⟨⟨a0, a1, a2, a3⟩, ⟨b0, b1, b2, b3⟩, ⟨c0, c1, c2, c3⟩, ⟨d0, d1, d2, d3⟩⟩ := m
  refine ⟨rfl, ?_⟩
  intro i j
  fin_cases i <;> fin_cases j <;> rfl

/-- Claim C8: `Quaternion::from_yaw_pitch_roll(yaw, pitch, roll)` is the
    Hamilton product `from_angle_y(yaw) * from_angle_x(pitch) *
    from_angle_z(roll)`, composed in exactly that (left-associated) order,
    for every `sin_cos` implementation and all angles. -/
theorem c8_from_yaw_pitch_roll (sc : ℚ → ℚ × ℚ) (yaw pitch roll : ℚ) :
    Quaternion.from_yaw_pitch_roll sc yaw pitch roll =
      Quaternion.mul
        (Quaternion.mul (Quaternion.from_angle_y sc yaw) (Quaternion.from_angle_x sc pitch))
        (Quaternion.from_angle_z sc roll) := rfl

/-- Claim C10: `Matrix4x4 * Vector3f` treats the vector as a point with
    implicit homogeneous `w = 1`: the result's three components equal the
    first three components of `M * Vector4f::from_v3f(v, 1.0)`, and the
    result's 4th physical lane is zero (truncation constructor). -/
theorem c10_mul_vector3f_homogeneous (m : Matrix4x4) (v : Vector3f) :
    (m.mulVector3f v).x = (m.mulVector4f (Vector4f.from_v3f v 1)).x ∧
    (m.mulVector3f v).y = (m.mulVector4f (Vector4f.from_v3f v 1)).y ∧
    (m.mulVector3f v).z = (m.mulVector4f (Vector4f.from_v3f v 1)).z ∧
    (m.mulVector3f v).padZero := by
  obtain ⟨⟨a0, a1, a2, a3⟩, ⟨b0, b1, b2, b3⟩, ⟨c0, c1, c2, c3⟩, ⟨d0, d1, d2, d3⟩⟩ := m
  obtain ⟨⟨v0, v1, v2, v3⟩⟩ := v
  refine ⟨?_, ?_, ?_, rfl⟩ <;>
    simp [Matrix4x4.mulVector3f, Matrix4x4.mulVector4f, Vector4f.from_v3f,
      Vector3f.from_simd_truncate, Vector3f.x, Vector3f.y, Vector3f.z,
      Vector4f.x, Vector4f.y, Vector4f.z, Vector3f.padZero,
      f32x4.add, f32x4.mul, f32x4.splat]

/-- Claim C6: `Matrix4x4::perspective` aborts via a fatal assertion if and
    only if one of `fov_y > 0`, `aspect_ratio > 0`, `near_plane > 1`,
    `far_plane > near_plane` is violated; when all four hold it returns the
    projection matrix normally. (`none` models the `assert!` abort.) -/
theorem c6_perspective_preconditions (sc : ℚ → ℚ × ℚ) (fov_y aspect near far : ℚ) :
    (Matrix4x4.perspective sc fov_y aspect near far = none ↔
      ¬(fov_y > 0 ∧ aspect > 0 ∧ near > 1 ∧ far > near)) ∧
    ((fov_y > 0 ∧ aspect > 0 ∧ near > 1 ∧ far > near) →
      (Matrix4x4.perspective sc fov_y aspect near far).isSome) := by
  unfold Matrix4x4.perspective
  constructor
  · split_ifs with h1 h2 h3 h4 <;> simp_all
  · rintro ⟨h1, h2, h3, h4⟩
    split_ifs
    simp_all

/-- Witness for C6: with all preconditions satisfied the call returns
    normally; with `fov_y = 0` it aborts. -/
theorem c6_perspective_preconditions_witness :
    (Matrix4x4.perspective (fun _ => (1, 1)) 1 1 2 3).isSome ∧
    Matrix4x4.perspective (fun _ => (1, 1)) 0 1 2 3 = none := by
  refine ⟨(c6_perspective_preconditions (fun _ => (1, 1)) 1 1 2 3).2 (by norm_num), ?_⟩
  exact (c6_perspective_preconditions (fun _ => (1, 1)) 0 1 2 3).1.mpr (by norm_num)

/-- Claim C7: `normalized()` on `Vector2f`, `Vector3f`, `Vector4f` and
    `Quaternion` returns the input unchanged when the computed length is
    exactly zero (so no NaN components can arise from a division by zero),
    and for nonzero length returns the input scaled by the reciprocal of
    its length. -/
theorem c7_normalized_zero_length (sqrt : ℚ → ℚ) :
    (∀ v : Vector2f,
      (Vector2f.len sqrt v = 0 → v.normalized sqrt = v) ∧
      (Vector2f.len sqrt v ≠ 0 →
        v.normalized sqrt = v.mulScalar (1 / Vector2f.len sqrt v))) ∧
    (∀ v : Vector3f,
      (Vector3f.len sqrt v = 0 → v.normalized sqrt = v) ∧
      (Vector3f.len sqrt v ≠ 0 →
        v.normalized sqrt = v.mulScalar (1 / Vector3f.len sqrt v))) ∧
    (∀ v : Vector4f,
      (Vector4f.len sqrt v = 0 → v.normalized sqrt = v) ∧
      (Vector4f.len sqrt v ≠ 0 →
        v.normalized sqrt = v.mulScalar (1 / Vector4f.len sqrt v))) ∧
    (∀ q : Quaternion,
      (Vector4f.len sqrt q.xyzw = 0 → q.normalized sqrt = q) ∧
      (Vector4f.len sqrt q.xyzw ≠ 0 →
        q.normalized sqrt = q.mulScalar (1 / Vector4f.len sqrt q.xyzw))) := by
  refine ⟨fun v => ⟨fun h => ?_, fun h => ?_⟩, fun v => ⟨fun h => ?_, fun h => ?_⟩,
    fun v => ⟨fun h => ?_, fun h => ?_⟩, fun q => ⟨fun h => ?_, fun h => ?_⟩⟩
  · simp [Vector2f.normalized, h]
  · obtain ⟨⟨v0, v1⟩⟩ := v
    simp only [Vector2f.normalized, if_neg h, Vector2f.divScalar, Vector2f.mulScalar,
      Vector2f.from_simd_truncate, f32x2.div, f32x2.mul, f32x2.splat]
    rw [div_eq_mul_one_div v0, div_eq_mul_one_div v1]
  · simp [Vector3f.normalized, h]
  · obtain ⟨⟨v0, v1, v2, v3⟩⟩ := v
    simp only [Vector3f.normalized, if_neg h, Vector3f.divScalar, Vector3f.mulScalar,
      Vector3f.from_simd_truncate, f32x4.div, f32x4.mul, f32x4.splat]
    rw [div_eq_mul_one_div v0, div_eq_mul_one_div v1, div_eq_mul_one_div v2]
  · simp [Vector4f.normalized, h]
  · obtain ⟨⟨v0, v1, v2, v3⟩⟩ := v
    simp only [Vector4f.normalized, if_neg h, Vector4f.divScalar, Vector4f.mulScalar,
      Vector4f.from_simd_truncate, f32x4.div, f32x4.mul, f32x4.splat]
    rw [div_eq_mul_one_div v0, div_eq_mul_one_div v1, div_eq_mul_one_div v2,
      div_eq_mul_one_div v3]
  · simp [Quaternion.normalized, h]
  · simp [Quaternion.normalized, if_neg h]

/-- Witness for C7: a zero-length input (under a `sqrt` that returns `0`)
    is returned unchanged; a length-2 input is scaled by `1/2`. -/
theorem c7_normalized_zero_length_witness :
    (Vector3f.new 1 2 3).normalized (fun _ => 0) = Vector3f.new 1 2 3 ∧
    (Vector3f.new 1 2 3).normalized (fun _ => 2) =
      (Vector3f.new 1 2 3).mulScalar (1 / 2) := by
  refine ⟨((c7_normalized_zero_length (fun _ => 0)).2.1 (Vector3f.new 1 2 3)).1 rfl, ?_⟩
  exact ((c7_normalized_zero_length (fun _ => 2)).2.1 (Vector3f.new 1 2 3)).2 (by decide)

/-- Claim C9: `Quaternion::to_axis_angle` first replaces `q` by
    `q.normalized()` when `q.w > 1`; the returned angle is `2 * acos(w)`;
    with `s = sqrt(1 - w*w)`, if `s` is below machine epsilon the returned
    axis is `(1, 0, 0)`, otherwise it is `(x/s, y/s, z/s)`. -/
theorem c9_to_axis_angle (sqrt acos : ℚ → ℚ) (q : Quaternion) :
    Quaternion.to_axis_angle sqrt acos q =
      (if sqrt (1 - (if q.w > 1 then q.normalized sqrt else q).w *
            (if q.w > 1 then q.normalized sqrt else q).w) < Quaternion.fEPSILON
       then Vector3f.new 1 0 0
       else Vector3f.new
          ((if q.w > 1 then q.normalized sqrt else q).x /
            sqrt (1 - (if q.w > 1 then q.normalized sqrt else q).w *
              (if q.w > 1 then q.normalized sqrt else q).w))
          ((if q.w > 1 then q.normalized sqrt else q).y /
            sqrt (1 - (if q.w > 1 then q.normalized sqrt else q).w *
              (if q.w > 1 then q.normalized sqrt else q).w))
          ((if q.w > 1 then q.normalized sqrt else q).z /
            sqrt (1 - (if q.w > 1 then q.normalized sqrt else q).w *
              (if q.w > 1 then q.normalized sqrt else q).w)),
       2 * acos (if q.w > 1 then q.normalized sqrt else q).w) := by
  simp only [Quaternion.to_axis_angle]
  split <;> split <;> rfl

/-- Claim C1 (amended): every listed public operation that returns a
    3-wide value re-establishes invariant P — given inputs whose 4th
    physical lane is zero, the result's 4th physical lane is zero:
    construction (`new`, `from_scalar`, `from_array`, `from_v2f`/
    `from_v2i`), vector-vector and vector-scalar `add`/`sub`/`mul` (and
    for `Vector3f` also `div`/`rem`), `neg`, `abs`, `floor`, `ceil`,
    `fract`, `recip`, `min`/`max`, `mul_add`, `cross`, `normalized`,
    `lerp`, and every generated swizzle accessor with 3-wide output (all
    routed through `from_simd_truncate`). `Vector3i` `div`/`rem` uphold
    the invariant whenever they return at all, but `std::simd` integer
    division panics on a zero divisor lane — always hit by the
    vector-vector forms when the divisor satisfies invariant P (its
    padding lane is zero), and by the scalar forms at divisor `0`. -/
theorem c1_padding_invariant (x y z t : ℚ) (v2 : Vector2f) (v w u : Vector3f)
    (simd : f32x4) (sq : ℚ → ℚ) (a b c d : ℤ) (vi wi zi : Vector3i) (simdi : i32x4)
    (hv : v.padZero) (hw : w.padZero) (hu : u.padZero)
    (hvi : vi.padZero) (hwi : wi.padZero) :
    (Vector3f.new x y z).padZero ∧
    (Vector3f.from_scalar t).padZero ∧
    (Vector3f.from_array x y z).padZero ∧
    (Vector3f.from_v2f v2 z).padZero ∧
    (v.add w).padZero ∧
    (v.sub w).padZero ∧
    (v.mul w).padZero ∧
    (v.div w).padZero ∧
    (v.rem w).padZero ∧
    (v.addScalar t).padZero ∧
    (v.subScalar t).padZero ∧
    (v.mulScalar t).padZero ∧
    (v.divScalar t).padZero ∧
    (v.remScalar t).padZero ∧
    v.neg.padZero ∧
    v.abs.padZero ∧
    v.floor.padZero ∧
    v.ceil.padZero ∧
    v.fract.padZero ∧
    v.recip.padZero ∧
    (v.min w).padZero ∧
    (v.max w).padZero ∧
    (Vector3f.mul_add v w u).padZero ∧
    (v.cross w).padZero ∧
    (v.normalized sq).padZero ∧
    (v.lerp w t).padZero ∧
    (Vector3f.from_simd_truncate simd).padZero ∧
    (Vector3i.new a b c).padZero ∧
    (Vector3i.from_scalar d).padZero ∧
    (Vector3i.from_array a b c).padZero ∧
    (Vector3i.from_v2i a b c).padZero ∧
    (vi.add wi).padZero ∧
    (vi.sub wi).padZero ∧
    (vi.mul wi).padZero ∧
    (∀ r, vi.div zi = some r → r.padZero) ∧
    (∀ r, vi.rem zi = some r → r.padZero) ∧
    vi.div wi = none ∧
    vi.rem wi = none ∧
    (vi.addScalar d).padZero ∧
    (vi.subScalar d).padZero ∧
    (vi.mulScalar d).padZero ∧
    (∀ r, vi.divScalar d = some r → r.padZero) ∧
    (∀ r, vi.remScalar d = some r → r.padZero) ∧
    (d = 0 → vi.divScalar d = none) ∧
    (d = 0 → vi.remScalar d = none) ∧
    vi.neg.padZero ∧
    vi.abs.padZero ∧
    (vi.min wi).padZero ∧
    (vi.max wi).padZero ∧
    (Vector3i.from_simd_truncate simdi).padZero := by
  obtain ⟨⟨v0, v1, vz, v3⟩⟩ := v
  obtain ⟨⟨w0, w1, w2, w3⟩⟩ := w
  obtain ⟨⟨u0, u1, u2, u3⟩⟩ := u
  obtain ⟨⟨p0, p1, p2, p3⟩⟩ := vi
  obtain ⟨⟨r0, r1, r2, r3⟩⟩ := wi
  simp only [Vector3f.padZero, Vector3i.padZero] at hv hw hu hvi hwi
  subst hv hw hu hvi hwi
  and_intros <;>
    first
      | (simp only [Vector3f.normalized]
         split_ifs <;>
           simp [Vector3f.padZero, Vector3f.divScalar, Vector3f.from_simd_truncate])
      | (intro r h
         simp only [Vector3i.div, Vector3i.rem, Vector3i.divScalar, Vector3i.remScalar,
           i32x4.div, i32x4.rem, i32x4.splat] at h
         split_ifs at h
         · simp at h
         · simp at h
         · rw [Option.map_some'] at h
           injection h with h
           subst h
           rfl)
      | (intro hd
         subst hd
         simp [Vector3i.divScalar, Vector3i.remScalar, i32x4.div, i32x4.rem, i32x4.splat])
      | (simp [Vector3f.padZero, Vector3i.padZero, Vector3f.new, Vector3f.from_scalar,
          Vector3f.from_array, Vector3f.from_v2f, Vector3f.from_simd_truncate,
          Vector3f.add, Vector3f.sub, Vector3f.neg, Vector3f.mul, Vector3f.div,
          Vector3f.rem, Vector3f.addScalar, Vector3f.subScalar, Vector3f.mulScalar,
          Vector3f.divScalar, Vector3f.remScalar, Vector3f.abs, Vector3f.recip,
          Vector3f.floor, Vector3f.ceil, Vector3f.fract, Vector3f.min, Vector3f.max,
          Vector3f.mul_add, Vector3f.cross, Vector3f.lerp,
          f32x4.add, f32x4.sub, f32x4.mul, f32x4.div, f32x4.rem, f32x4.neg,
          f32x4.splat, f32x4.vabs, f32x4.vrecip, f32x4.vfloor, f32x4.vceil,
          f32x4.vfract, f32x4.vmin, f32x4.vmax, f32x4.vmul_add, frem, rtrunc,
          Vector3i.new, Vector3i.from_scalar, Vector3i.from_array, Vector3i.from_v2i,
          Vector3i.from_simd_truncate, Vector3i.add, Vector3i.sub, Vector3i.neg,
          Vector3i.mul, Vector3i.div, Vector3i.rem, Vector3i.addScalar,
          Vector3i.subScalar, Vector3i.mulScalar, Vector3i.divScalar,
          Vector3i.remScalar, Vector3i.abs, Vector3i.min, Vector3i.max,
          i32x4.add, i32x4.sub, i32x4.mul, i32x4.div, i32x4.rem, i32x4.neg,
          i32x4.splat, i32x4.vabs, i32x4.vmin, i32x4.vmax])

/-- Claim C1 counterexample: at a concrete finite input, `Vector3i`
    vector-vector `div`/`rem` do not return a zero-padded value — they do
    not return at all: the divisor satisfies invariant P, so its padding
    lane is zero and `std::simd` integer division hits its
    divide-by-zero panic (`none`). The scalar forms likewise panic at
    divisor `0`, also a finite input covered by the claim. -/
theorem c1_padding_counterexample :
    (Vector3i.new 1 2 3).div (Vector3i.new 4 5 6) = none ∧
    (Vector3i.new 1 2 3).rem (Vector3i.new 4 5 6) = none ∧
    (Vector3i.new 1 2 3).divScalar 0 = none ∧
    (Vector3i.new 1 2 3).remScalar 0 = none := by
  refine ⟨by decide, by decide, by decide, by decide⟩

/-- Witness for C1 (amended) at concrete inputs (all padding-lane
    hypotheses discharged by evaluation). -/
theorem c1_padding_invariant_witness : (Vector3f.new 1 2 3).padZero := by
  have h := c1_padding_invariant 1 2 3 4 (Vector2f.new 5 6) (Vector3f.new 1 2 3)
    (Vector3f.new 4 5 6) (Vector3f.new 7 8 9) ⟨1, 2, 3, 4⟩ (fun q => q)
    1 2 3 4 (Vector3i.new 1 2 3) (Vector3i.new 4 5 6) ⟨7, 8, 9, 10⟩ ⟨1, 2, 3, 4⟩
    (by decide) (by decide) (by decide) (by decide) (by decide)
  exact h.1

/-- Claim C2 counterexample: indexing a padded 3-component vector at
    position 3 does not fail out-of-bounds — `Index` forwards to the
    4-lane physical register, so it succeeds and returns the (zero)
    padding lane, for both `Vector3f` and `Vector3i`. -/
theorem c2_index_padded_counterexample :
    Vector3f.index (Vector3f.new 1 2 3) 3 = some 0 ∧
    Vector3f.index (Vector3f.new 1 2 3) 3 ≠ none ∧
    Vector3i.index (Vector3i.new 1 2 3) 3 = some 0 ∧
    Vector3i.index (Vector3i.new 1 2 3) 3 ≠ none := by
  refine ⟨rfl, by decide, rfl, by decide⟩

/-- Claim C2 (amended): for the non-padded vector types indexing fails
    out-of-bounds exactly when the index reaches the component count
    (2 for `Vector2f`/`Vector2i`, 4 for `Vector4f`/`Vector4i`); for the
    padded 3-component types the typed indexing API exposes all 4 physical
    lanes, failing only at index ≥ 4, and index 3 succeeds, returning the
    padding lane (zero whenever invariant P holds). -/
theorem c2_index_bounds (i : Nat) (v2 : Vector2f) (v3 : Vector3f) (v4 : Vector4f)
    (w2 : Vector2i) (w3 : Vector3i) (w4 : Vector4i) :
    (2 ≤ i → v2.index i = none) ∧ (i < 2 → (v2.index i).isSome = true) ∧
    (4 ≤ i → v3.index i = none) ∧ (i < 4 → (v3.index i).isSome = true) ∧
    (4 ≤ i → v4.index i = none) ∧ (i < 4 → (v4.index i).isSome = true) ∧
    (2 ≤ i → w2.index i = none) ∧ (i < 2 → (w2.index i).isSome = true) ∧
    (4 ≤ i → w3.index i = none) ∧ (i < 4 → (w3.index i).isSome = true) ∧
    (4 ≤ i → w4.index i = none) ∧ (i < 4 → (w4.index i).isSome = true) ∧
    (v3.padZero → v3.index 3 = some 0) ∧ (w3.padZero → w3.index 3 = some 0) := by
  obtain ⟨⟨a0, a1, a2, a3⟩⟩ := v3
  obtain ⟨⟨b0, b1, b2, b3⟩⟩ := w3
  rcases i with _ | _ | _ | _ | i <;> and_intros <;> intro h <;>
    first
      | omega
      | rfl
      | (simp only [Vector3f.padZero] at h
         simp [Vector3f.index, h])
      | (simp only [Vector3i.padZero] at h
         simp [Vector3i.index, h])

/-- Witness for C2 (amended) at concrete inputs. -/
theorem c2_index_bounds_witness :
    Vector2f.index (Vector2f.new 1 2) 7 = none ∧
    Vector3f.index (Vector3f.new 1 2 3) 3 = some 0 := by
  have h := c2_index_bounds 7 (Vector2f.new 1 2) (Vector3f.new 1 2 3)
    (Vector4f.new 1 2 3 4) (Vector2i.new 1 2) (Vector3i.new 1 2 3)
    (Vector4i.new 1 2 3 4)
  exact ⟨h.1 (by omega), h.2.2.2.2.2.2.2.2.2.2.2.2.1 (by decide)⟩

/-- Claim C3: for a `Matrix2x3` with finite elements and
    `det = e00*e11 - e10*e01`, `inverse()` has elements `e00' = e11/det`,
    `e10' = -e01/det`, `e01' = -e10/det`, `e11' = e00/det`,
    `e02' = (e01*e12 - e02*e11)/det`, `e12' = (e02*e10 - e00*e12)/det`;
    when `det == 0` every element of the result is `±inf`/`NaN` rather
    than a reported error. -/
theorem c3_matrix2x3_inverse (e00 e10 e01 e11 e02 e12 : ℚ) :
    (Matrix2x3.new (F.fin e00) (F.fin e10) (F.fin e01) (F.fin e11) (F.fin e02)
        (F.fin e12)).determinant = F.fin (e00 * e11 - e10 * e01) ∧
    (e00 * e11 - e10 * e01 ≠ 0 →
      (Matrix2x3.new (F.fin e00) (F.fin e10) (F.fin e01) (F.fin e11) (F.fin e02)
          (F.fin e12)).inverse =
        Matrix2x3.new
          (F.fin (e11 / (e00 * e11 - e10 * e01)))
          (F.fin (-e01 / (e00 * e11 - e10 * e01)))
          (F.fin (-e10 / (e00 * e11 - e10 * e01)))
          (F.fin (e00 / (e00 * e11 - e10 * e01)))
          (F.fin ((e01 * e12 - e02 * e11) / (e00 * e11 - e10 * e01)))
          (F.fin ((e02 * e10 - e00 * e12) / (e00 * e11 - e10 * e01)))) ∧
    (e00 * e11 - e10 * e01 = 0 →
      F.isSpecial (Matrix2x3.new (F.fin e00) (F.fin e10) (F.fin e01) (F.fin e11)
          (F.fin e02) (F.fin e12)).inverse.c0.l0 ∧
      F.isSpecial (Matrix2x3.new (F.fin e00) (F.fin e10) (F.fin e01) (F.fin e11)
          (F.fin e02) (F.fin e12)).inverse.c0.l1 ∧
      F.isSpecial (Matrix2x3.new (F.fin e00) (F.fin e10) (F.fin e01) (F.fin e11)
          (F.fin e02) (F.fin e12)).inverse.c1.l0 ∧
      F.isSpecial (Matrix2x3.new (F.fin e00) (F.fin e10) (F.fin e01) (F.fin e11)
          (F.fin e02) (F.fin e12)).inverse.c1.l1 ∧
      F.isSpecial (Matrix2x3.new (F.fin e00) (F.fin e10) (F.fin e01) (F.fin e11)
          (F.fin e02) (F.fin e12)).inverse.c2.l0 ∧
      F.isSpecial (Matrix2x3.new (F.fin e00) (F.fin e10) (F.fin e01) (F.fin e11)
          (F.fin e02) (F.fin e12)).inverse.c2.l1) := by
  refine ⟨rfl, fun h => ?_, fun h => ?_⟩
  · simp only [Matrix2x3.inverse, Matrix2x3.determinant, Matrix2x3.fcross,
      Matrix2x3.new, F.mul, F.sub, F.neg, F.div, if_neg h, mul_one_div]
  · simp only [Matrix2x3.inverse, Matrix2x3.determinant, Matrix2x3.fcross,
      Matrix2x3.new, F.mul, F.sub, F.neg, F.div, h]
    norm_num
    and_intros <;> (split_ifs <;> simp [F.isSpecial])

/-- Witness for C3: an invertible concrete matrix and a singular one. -/
theorem c3_matrix2x3_inverse_witness :
    (Matrix2x3.new (F.fin 1) (F.fin 0) (F.fin 0) (F.fin 1) (F.fin 5)
        (F.fin 7)).inverse =
      Matrix2x3.new (F.fin 1) (F.fin 0) (F.fin 0) (F.fin 1) (F.fin (-5))
        (F.fin (-7)) ∧
    F.isSpecial (Matrix2x3.new (F.fin 1) (F.fin 2) (F.fin 2) (F.fin 4) (F.fin 0)
        (F.fin 0)).inverse.c0.l0 := by
  constructor
  · have h := (c3_matrix2x3_inverse 1 0 0 1 5 7).2.1 (by norm_num)
    rw [h]
    simp only [Matrix2x3.new, Matrix2x3.mk.injEq, Fx2.mk.injEq, F.fin.injEq]
    norm_num
  · exact ((c3_matrix2x3_inverse 1 2 2 4 0 0).2.2 (by norm_num)).1
